import Mathlib

/-!
# Verification of the RSI alert core

A shallow embedding of the computation core of the repository
(`src/rsi_utils.py` together with the threshold constants of
`src/config/shared.py`): RSI computation from a price series, extreme
threshold detection across the two configured periods, and the Markdown
alert composer.  Prices and RSI values are modelled as rationals; the
IEEE special values that pandas produces (`NaN` from `diff()`/`0/0`,
`inf` from `x/0`) are made explicit: a series cell is `Option ℚ`, with
`none` for `NaN`, and the `inf` path of `rs = avg_gain / avg_loss`
collapses, as in the float code, to the saturated RSI value 100.
-/

namespace shared

/-- `config/shared.py`: RSI threshold settings. -/
def RSI_OVERBOUGHT_14 : ℚ := 65

/-- `config/shared.py`: oversold cutoff for period 14. -/
def RSI_OVERSOLD_14 : ℚ := 35

/-- `config/shared.py`: overbought cutoff for period 6. -/
def RSI_OVERBOUGHT_6 : ℚ := 70

/-- `config/shared.py`: oversold cutoff for period 6. -/
def RSI_OVERSOLD_6 : ℚ := 30

end shared

namespace RsiUtils

/-! ## RSIEngine: `calculate_rsi` (src/rsi_utils.py lines 14-34) -/

/-- `prices.diff()` with the leading `NaN` dropped: consecutive
differences, `diffs[i] = prices[i+1] - prices[i]`. -/
def diffs (prices : List ℚ) : List ℚ :=
  List.zipWith (fun a b => b - a) prices prices.tail

/-- The recursion of `Series.ewm(alpha=α, adjust=False).mean()` after the
seed: `y_t = α * x_t + (1-α) * y_{t-1}`. -/
def ewmFrom (alpha prev : ℚ) : List ℚ → List ℚ
  | [] => []
  | x :: xs =>
      (alpha * x + (1 - alpha) * prev) :: ewmFrom alpha (alpha * x + (1 - alpha) * prev) xs

/-- `Series.ewm(alpha=α, adjust=False).mean()` on the non-`NaN` tail of
the gain/loss series: pandas seeds the recursion with the first value. -/
def ewm_mean (alpha : ℚ) : List ℚ → List ℚ
  | [] => []
  | x :: xs => x :: ewmFrom alpha x xs

/-- One cell of `rsi = 100 - (100 / (1 + avg_gain / avg_loss))`, with the
float special cases explicit: `avg_loss = 0` gives `rs = inf` (RSI 100)
when `avg_gain > 0` and `rs = NaN` (an undefined cell) when both are 0. -/
def rsiPoint (g l : ℚ) : Option ℚ :=
  if l = 0 then (if g = 0 then none else some 100)
  else some (100 - 100 / (1 + g / l))

/-- `calculate_rsi(prices, period)`: `None` when fewer than `period + 1`
prices, otherwise the full RSI series (its cell 0 is the `NaN` that
`prices.diff()` puts at the head). -/
def calculate_rsi (prices : List ℚ) (period : ℕ) : Option (List (Option ℚ)) :=
  if prices.length < period + 1 then none
  else
    let gain := (diffs prices).map fun d => max d 0
    let loss := (diffs prices).map fun d => max (-d) 0
    let avg_gain := ewm_mean (1 / (period : ℚ)) gain
    let avg_loss := ewm_mean (1 / (period : ℚ)) loss
    some (none :: List.zipWith rsiPoint avg_gain avg_loss)

/-! ## ExtremeDetector: `analyze_extreme_rsi` (src/rsi_utils.py lines 37-103) -/

/-- One symbol's entry of the `results` mapping.  A non-numeric
`rsi_14`/`rsi_6` field (the `"Failed to fetch data"` placeholder, or a
missing value) is `none`; `isinstance(-, numbers.Real)` is `Option.isSome`. -/
structure SymbolData where
  error : Bool
  price : Option ℚ
  rsi_14 : Option ℚ
  rsi_6 : Option ℚ
deriving DecidableEq

/-- One element of the list `analyze_extreme_rsi` returns. -/
structure ExtremeEntry where
  symbol : String
  indicator : String
  signal : String
  rsi_value : ℚ
  price : Option ℚ
deriving DecidableEq

/-- The events one period's RSI reading contributes: nothing for a
non-numeric reading, the overbought entry when `v ≥ ob`, else the
oversold entry when `v ≤ os`, else nothing. -/
def periodEvents (symbol indicator : String) (ob os : ℚ) (price : Option ℚ) :
    Option ℚ → List ExtremeEntry
  | none => []
  | some v =>
      if ob ≤ v then [⟨symbol, indicator, "超买", v, price⟩]
      else if v ≤ os then [⟨symbol, indicator, "超卖", v, price⟩]
      else []

/-- The loop body of `analyze_extreme_rsi` for one symbol: skip when
`data.get("error")`, else check period 14 then period 6. -/
def symbolEvents (p : String × SymbolData) : List ExtremeEntry :=
  if p.2.error then []
  else
    periodEvents p.1 "RSI-14" shared.RSI_OVERBOUGHT_14 shared.RSI_OVERSOLD_14
        p.2.price p.2.rsi_14
      ++ periodEvents p.1 "RSI-6" shared.RSI_OVERBOUGHT_6 shared.RSI_OVERSOLD_6
        p.2.price p.2.rsi_6

/-- `analyze_extreme_rsi(results)`: the `results` dict is an association
list in its (insertion-order) iteration order. -/
def analyze_extreme_rsi (results : List (String × SymbolData)) : List ExtremeEntry :=
  (results.map symbolEvents).flatten

/-! ## MessageComposer: `format_rsi_message` (src/rsi_utils.py lines 106-196) -/

/-- Insert a `','` before every third digit, walking the reversed digit
list; the counter is the distance to the next group boundary. -/
def commaRev : List Char → ℕ → List Char
  | [], _ => []
  | c :: rest, 0 => ',' :: c :: commaRev rest 2
  | c :: rest, k + 1 => c :: commaRev rest k

/-- The digits of `n` with thousands separators, as in Python `{:,}`. -/
def natGrouped (n : ℕ) : String :=
  String.mk ((commaRev (toString n).data.reverse 3).reverse)

/-- Two-digit rendering of `n < 100` (the cents of a 2-decimal format). -/
def twoDigits (n : ℕ) : String :=
  if n < 10 then "0" ++ toString n else toString n

/-- `⌊q + 1/2⌋` computed on the reduced fraction (`Int.fdiv` is floor
division), so that it evaluates by kernel reduction. -/
def roundRat (q : ℚ) : ℤ :=
  (q + 1 / 2).num.fdiv ((q + 1 / 2).den : ℤ)

/-- Python `f"{x:,.2f}"`: round to cents, group the integer digits.
(Ties are rounded half-up; the concrete values compared in this file are
exact cents, where every rounding mode agrees with the float format.) -/
def moneyFormat (v : ℚ) : String :=
  (if roundRat (v * 100) < 0 then "-" else "")
    ++ natGrouped ((roundRat (v * 100)).natAbs / 100) ++ "."
    ++ twoDigits ((roundRat (v * 100)).natAbs % 100)

/-- Python `f"{x:.2f}"`: two decimals, no grouping. -/
def twoDecimals (v : ℚ) : String :=
  (if roundRat (v * 100) < 0 then "-" else "")
    ++ toString ((roundRat (v * 100)).natAbs / 100) ++ "."
    ++ twoDigits ((roundRat (v * 100)).natAbs % 100)

/-- `_format_price(value)`: `$X,XXX.XX` for a number, `"--"` otherwise. -/
def format_price : Option ℚ → String
  | some v => "$" ++ moneyFormat v
  | none => "--"

/-- The overbought partition: entries whose `signal` is `"超买"`, in
input order. -/
def overboughtItems (extreme_rsi : List ExtremeEntry) : List ExtremeEntry :=
  extreme_rsi.filter fun e => e.signal == "超买"

/-- The oversold partition: entries whose `signal` is `"超卖"`. -/
def oversoldItems (extreme_rsi : List ExtremeEntry) : List ExtremeEntry :=
  extreme_rsi.filter fun e => e.signal == "超卖"

/-- `f"RSI-{len(overbought_items)}个超买,{len(oversold_items)}个超卖信号"`. -/
def base_title (extreme_rsi : List ExtremeEntry) : String :=
  "RSI-" ++ toString (overboughtItems extreme_rsi).length ++ "个超买,"
    ++ toString (oversoldItems extreme_rsi).length ++ "个超卖信号"

/-- The title: the timeframe tag is prefixed when it is truthy (present
and non-empty), as in `f"{tag} | {base}" if tag else base`. -/
def mkTitle (timeframe_tag : Option String) (base : String) : String :=
  match timeframe_tag with
  | some tag => if tag.isEmpty then base else tag ++ " | " ++ base
  | none => base

/-- The header block: analysis label and the timestamp line built from
`now` (the value `datetime.now().strftime('%Y-%m-%d %H:%M:%S')` read
during the call, made an explicit argument here). -/
def headerLines (now : String) : List String :=
  ["## 📈 RSI技术指标分析", "",
   "🕰️ **检测时间**: " ++ now, "", "---", ""]

/-- The two table header lines shared by both sections. -/
def tableHead : List String :=
  ["| 加密货币 | RSI指标 | RSI值 | 最新价格 |",
   "|---------|--------|-------|-----------|"]

/-- One table row.  (In the source, `symbol`/`indicator`/`rsi_value` are
always present and numeric on every entry the detector emits, so the
`"--"` fallbacks for those fields are unreachable and `rsi_value` is a
plain rational here; the price fallback is kept in `format_price`.) -/
def rowLine (item : ExtremeEntry) : String :=
  "| **" ++ item.symbol ++ "** | `" ++ item.indicator ++ "` | **"
    ++ twoDecimals item.rsi_value ++ "** | " ++ format_price item.price ++ " |"

/-- The overbought section, present exactly when its partition is. -/
def obSection (items : List ExtremeEntry) : List String :=
  if items.isEmpty then []
  else
    ["### 🔴 **超买区域** `卖出信号`", ""] ++ tableHead ++ items.map rowLine
      ++ ["", "> 📉 **建议**: 考虑卖出，获利了结", ""]

/-- The oversold section, present exactly when its partition is. -/
def osSection (items : List ExtremeEntry) : List String :=
  if items.isEmpty then []
  else
    ["### 🟢 **超卖区域** `买入信号`", ""] ++ tableHead ++ items.map rowLine
      ++ ["", "> 📈 **建议**: 考虑买入，可能将反弹", ""]

/-- The fixed footer: threshold legend and disclaimer. -/
def footerLines : List String :=
  ["---", "", "### 📊 RSI指标说明", "",
   "- **RSI-14**: 14日相对强弱指数 (超买: ≥ 65, 超卖: ≤ 35)",
   "- **RSI-6**: 6日相对强弱指数 (超买: ≥ 70, 超卖: ≤ 30)",
   "",
   "> ⚠️ **免责声明**: 仅供参考，不构成投资建议，请理性投资。"]

/-- `content_lines` of a non-empty event list. -/
def format_lines (extreme_rsi : List ExtremeEntry) (now : String) : List String :=
  headerLines now ++ obSection (overboughtItems extreme_rsi)
    ++ osSection (oversoldItems extreme_rsi) ++ footerLines

/-- `format_rsi_message(extreme_rsi, timeframe_tag)` with the wall-clock
read made the explicit argument `now`: `("", "")` on an empty list, else
the title and the `"\n"`-joined content lines. -/
def format_rsi_message (extreme_rsi : List ExtremeEntry)
    (timeframe_tag : Option String) (now : String) : String × String :=
  if extreme_rsi.isEmpty then ("", "")
  else (mkTitle timeframe_tag (base_title extreme_rsi),
        String.intercalate "\n" (format_lines extreme_rsi now))

/-- The body as a line list (empty for the empty-event early return). -/
def bodyLines (extreme_rsi : List ExtremeEntry) (now : String) : List String :=
  if extreme_rsi.isEmpty then [] else format_lines extreme_rsi now

end RsiUtils

namespace RsiUtils

/-- C7: the composer on an empty event list returns exactly `("", "")`. -/
theorem compose_empty_returns_empty_pair (timeframe_tag : Option String) (now : String) :
    format_rsi_message [] timeframe_tag now = ("", "") := rfl

/-- C3: for a numeric RSI reading of a non-error symbol, an event is
emitted exactly when the value reaches the period's cutoffs, both
comparisons inclusive: at or above the overbought cutoff the overbought
entry, at or below the oversold cutoff the oversold entry, and strictly
between the two cutoffs no event — for period 14 with cutoffs 65/35 and
period 6 with cutoffs 70/30. -/
theorem extreme_event_iff_threshold (sym : String) (price : Option ℚ) (v : ℚ) :
    (analyze_extreme_rsi [(sym, ⟨false, price, some v, none⟩)]
      = if shared.RSI_OVERBOUGHT_14 ≤ v then [⟨sym, "RSI-14", "超买", v, price⟩]
        else if v ≤ shared.RSI_OVERSOLD_14 then [⟨sym, "RSI-14", "超卖", v, price⟩]
        else [])
    ∧ (analyze_extreme_rsi [(sym, ⟨false, price, none, some v⟩)]
      = if shared.RSI_OVERBOUGHT_6 ≤ v then [⟨sym, "RSI-6", "超买", v, price⟩]
        else if v ≤ shared.RSI_OVERSOLD_6 then [⟨sym, "RSI-6", "超卖", v, price⟩]
        else []) := by
  refine ⟨?_, ?_⟩
  · show (periodEvents sym "RSI-14" shared.RSI_OVERBOUGHT_14 shared.RSI_OVERSOLD_14
        price (some v) ++ []) ++ [] = _
    rw [List.append_nil, List.append_nil]
    rfl
  · show periodEvents sym "RSI-6" shared.RSI_OVERBOUGHT_6 shared.RSI_OVERSOLD_6
        price (some v) ++ [] = _
    rw [List.append_nil]
    rfl

/-- The title never depends on the `now` timestamp. -/
lemma title_ignores_now (events : List ExtremeEntry) (timeframe_tag : Option String)
    (now₁ now₂ : String) :
    (format_rsi_message events timeframe_tag now₁).1
      = (format_rsi_message events timeframe_tag now₂).1 := by
  cases events with
  | nil => simp [format_rsi_message]
  | cons e es => rfl

/-- The body is the `"\n"`-join of the body's line list. -/
lemma body_eq_join_bodyLines (events : List ExtremeEntry) (timeframe_tag : Option String)
    (now : String) :
    (format_rsi_message events timeframe_tag now).2
      = String.intercalate "\n" (bodyLines events now) := by
  cases events with
  | nil => rfl
  | cons e es => rfl

/-- Changing `now` changes the body's line list only at index 2. -/
lemma bodyLines_set_timestamp (events : List ExtremeEntry) (now₁ now₂ : String) :
    bodyLines events now₁
      = (bodyLines events now₂).set 2 ("🕰️ **检测时间**: " ++ now₁) := by
  cases events with
  | nil => rfl
  | cons e es =>
      simp only [bodyLines, format_lines, headerLines, List.isEmpty_cons, List.cons_append,
        List.nil_append, List.set_cons_succ, List.set_cons_zero, Bool.false_eq_true,
        if_false]

/-- C4: the composer is a pure function of the event list, the timeframe
tag and the `now` timestamp — repeated calls agree byte for byte — and
between two calls that differ only in `now`, the title is identical and
the body differs only in line 2, the timestamp line. -/
theorem composer_deterministic (events : List ExtremeEntry)
    (timeframe_tag : Option String) (now₁ now₂ : String) :
    (format_rsi_message events timeframe_tag now₁).1
      = (format_rsi_message events timeframe_tag now₂).1
    ∧ (format_rsi_message events timeframe_tag now₁).2
      = String.intercalate "\n" (bodyLines events now₁)
    ∧ bodyLines events now₁
      = (bodyLines events now₂).set 2 ("🕰️ **检测时间**: " ++ now₁) :=
  ⟨title_ignores_now events timeframe_tag now₁ now₂,
   body_eq_join_bodyLines events timeframe_tag now₁,
   bodyLines_set_timestamp events now₁ now₂⟩

/-- One period contributes at most one event, and it carries the
symbol and the period label it was built from. -/
lemma periodEvents_shape (sym ind : String) (ob os : ℚ) (price : Option ℚ) (r : Option ℚ) :
    (periodEvents sym ind ob os price r).length ≤ 1
    ∧ ∀ e ∈ periodEvents sym ind ob os price r, e.symbol = sym ∧ e.indicator = ind := by
  cases r with
  | none => simp [periodEvents]
  | some v =>
      simp only [periodEvents]
      split_ifs <;> simp

/-- A symbol entry that produces no events: either its `error` flag is
set, or each of its numeric RSI readings lies strictly between the
period's oversold and overbought cutoffs. -/
def benignData (d : SymbolData) : Prop :=
  d.error = true ∨
    ((∀ v : ℚ, d.rsi_14 = some v → shared.RSI_OVERSOLD_14 < v ∧ v < shared.RSI_OVERBOUGHT_14)
      ∧ (∀ v : ℚ, d.rsi_6 = some v → shared.RSI_OVERSOLD_6 < v ∧ v < shared.RSI_OVERBOUGHT_6))

/-- A benign entry contributes no events. -/
lemma benign_symbolEvents (p : String × SymbolData) (h : benignData p.2) :
    symbolEvents p = [] := by
  rcases h with herr | ⟨h14, h6⟩
  · simp [symbolEvents, herr]
  · have e14 : periodEvents p.1 "RSI-14" shared.RSI_OVERBOUGHT_14 shared.RSI_OVERSOLD_14
        p.2.price p.2.rsi_14 = [] := by
      cases hr : p.2.rsi_14 with
      | none => rfl
      | some v =>
          obtain ⟨hlo, hhi⟩ := h14 v hr
          simp only [periodEvents]
          rw [if_neg (not_le.mpr hhi), if_neg (not_le.mpr hlo)]
    have e6 : periodEvents p.1 "RSI-6" shared.RSI_OVERBOUGHT_6 shared.RSI_OVERSOLD_6
        p.2.price p.2.rsi_6 = [] := by
      cases hr : p.2.rsi_6 with
      | none => rfl
      | some v =>
          obtain ⟨hlo, hhi⟩ := h6 v hr
          simp only [periodEvents]
          rw [if_neg (not_le.mpr hhi), if_neg (not_le.mpr hlo)]
    by_cases herr : p.2.error <;> simp [symbolEvents, herr, e14, e6]

/-- A run of benign entries produces an empty event list. -/
lemma analyze_benign (results : List (String × SymbolData))
    (h : ∀ p ∈ results, benignData p.2) : analyze_extreme_rsi results = [] := by
  induction results with
  | nil => rfl
  | cons p rest ih =>
      show symbolEvents p ++ analyze_extreme_rsi rest = []
      rw [benign_symbolEvents p (h p (List.mem_cons_self p rest)), List.nil_append]
      exact ih fun q hq => h q (List.mem_cons_of_mem p hq)

/-- C5: an entry flagged as error contributes no events whatever its RSI
fields; a non-numeric RSI reading contributes no event; a run where
every symbol is errored or strictly in range yields no events and the
composer returns `("", "")` — in particular for the scenario
`BTC: RSI-14 = 50, ETH: error`. -/
theorem errors_and_in_range_produce_no_alert :
    (∀ p : String × SymbolData, p.2.error = true → symbolEvents p = [])
    ∧ (∀ (sym ind : String) (ob os : ℚ) (price : Option ℚ),
        periodEvents sym ind ob os price none = [])
    ∧ (∀ (results : List (String × SymbolData)) (timeframe_tag : Option String) (now : String),
        (∀ p ∈ results, benignData p.2) →
          analyze_extreme_rsi results = []
          ∧ format_rsi_message (analyze_extreme_rsi results) timeframe_tag now = ("", ""))
    ∧ format_rsi_message
        (analyze_extreme_rsi
          [("BTC", ⟨false, some 1, some 50, none⟩), ("ETH", ⟨true, none, some 100, some 0⟩)])
        none "2024-05-01 08:00:00" = ("", "") := by
  refine ⟨?_, ?_, ?_, ?_⟩
  · intro p h
    simp [symbolEvents, h]
  · intro sym ind ob os price
    rfl
  · intro results timeframe_tag now h
    have hres := analyze_benign results h
    exact ⟨hres, by rw [hres]; rfl⟩
  · decide

/-- C6: the detector's output is the per-symbol contributions joined in
the input's iteration order, and each symbol contributes at most one
event per period — its period-14 part (every element labelled `RSI-14`)
followed by its period-6 part — hence at most two events in all. -/
theorem detector_order_and_event_counts :
    (∀ results : List (String × SymbolData),
        analyze_extreme_rsi results = (results.map symbolEvents).flatten)
    ∧ ∀ p : String × SymbolData, ∃ e14 e6 : List ExtremeEntry,
        symbolEvents p = e14 ++ e6
        ∧ e14.length ≤ 1 ∧ e6.length ≤ 1 ∧ (symbolEvents p).length ≤ 2
        ∧ (∀ e ∈ e14, e.symbol = p.1 ∧ e.indicator = "RSI-14")
        ∧ (∀ e ∈ e6, e.symbol = p.1 ∧ e.indicator = "RSI-6") := by
  refine ⟨fun _ => rfl, ?_⟩
  intro p
  by_cases h : p.2.error
  · exact ⟨[], [], by simp [symbolEvents, h], by simp, by simp,
      by simp [symbolEvents, h], by simp, by simp⟩
  · have hsplit : symbolEvents p
        = periodEvents p.1 "RSI-14" shared.RSI_OVERBOUGHT_14 shared.RSI_OVERSOLD_14
            p.2.price p.2.rsi_14
          ++ periodEvents p.1 "RSI-6" shared.RSI_OVERBOUGHT_6 shared.RSI_OVERSOLD_6
            p.2.price p.2.rsi_6 := by
      simp [symbolEvents, h]
    obtain ⟨len14, mem14⟩ := periodEvents_shape p.1 "RSI-14"
      shared.RSI_OVERBOUGHT_14 shared.RSI_OVERSOLD_14 p.2.price p.2.rsi_14
    obtain ⟨len6, mem6⟩ := periodEvents_shape p.1 "RSI-6"
      shared.RSI_OVERBOUGHT_6 shared.RSI_OVERSOLD_6 p.2.price p.2.rsi_6
    refine ⟨_, _, hsplit, len14, len6, ?_, mem14, mem6⟩
    rw [hsplit, List.length_append]
    omega

/-- The title of a non-empty event list, before the timeframe prefix. -/
lemma title_of_cons (e : ExtremeEntry) (es : List ExtremeEntry)
    (timeframe_tag : Option String) (now : String) :
    (format_rsi_message (e :: es) timeframe_tag now).1
      = mkTitle timeframe_tag (base_title (e :: es)) := rfl

/-- `base_title` counts the events of each signal. -/
lemma base_title_counts (events : List ExtremeEntry) :
    base_title events
      = "RSI-" ++ toString (events.countP fun e => e.signal == "超买") ++ "个超买,"
        ++ toString (events.countP fun e => e.signal == "超卖") ++ "个超卖信号" := by
  rw [base_title, overboughtItems, oversoldItems,
    ← List.countP_eq_length_filter, ← List.countP_eq_length_filter]

/-- C8: for a non-empty event list the title is
`RSI-{n}个超买,{m}个超卖信号`, `n` and `m` counting the events whose
signal is `超买` resp. `超卖`, prefixed with `"<tag> | "` exactly for a
truthy (present, non-empty) timeframe label; and the single BTC RSI-14
overbought event at 72.50 with price 63123.45 yields the title
`RSI-1个超买,0个超卖信号` and a body row with BTC, RSI-14, 72.50 and
`$63,123.45`. -/
theorem title_formula_and_btc_scenario :
    (∀ (events : List ExtremeEntry) (now : String),
        events.isEmpty = false →
          (format_rsi_message events none now).1
            = "RSI-" ++ toString (events.countP fun e => e.signal == "超买") ++ "个超买,"
              ++ toString (events.countP fun e => e.signal == "超卖") ++ "个超卖信号")
    ∧ (∀ (events : List ExtremeEntry) (tag now : String),
        events.isEmpty = false → tag.isEmpty = false →
          (format_rsi_message events (some tag) now).1
            = tag ++ " | "
              ++ ("RSI-" ++ toString (events.countP fun e => e.signal == "超买") ++ "个超买,"
                ++ toString (events.countP fun e => e.signal == "超卖") ++ "个超卖信号"))
    ∧ (format_rsi_message [⟨"BTC", "RSI-14", "超买", 72.5, some 63123.45⟩]
        none "2024-05-01 08:00:00").1 = "RSI-1个超买,0个超卖信号"
    ∧ "| **BTC** | `RSI-14` | **72.50** | $63,123.45 |"
        ∈ format_lines [⟨"BTC", "RSI-14", "超买", 72.5, some 63123.45⟩]
            "2024-05-01 08:00:00" := by
  have key : ∀ (events : List ExtremeEntry) (timeframe_tag : Option String) (now : String),
      events.isEmpty = false →
        (format_rsi_message events timeframe_tag now).1
          = mkTitle timeframe_tag
              ("RSI-" ++ toString (events.countP fun e => e.signal == "超买") ++ "个超买,"
                ++ toString (events.countP fun e => e.signal == "超卖") ++ "个超卖信号") := by
    intro events timeframe_tag now hne
    cases events with
    | nil => simp at hne
    | cons e es => rw [title_of_cons, base_title_counts]
  refine ⟨?_, ?_, ?_, ?_⟩
  · intro events now hne
    exact key events none now hne
  · intro events tag now hne htag
    rw [key events (some tag) now hne]
    simp [mkTitle, htag]
  · with_unfolding_all decide
  · have hlist : format_lines [⟨"BTC", "RSI-14", "超买", 72.5, some 63123.45⟩]
        "2024-05-01 08:00:00"
        = ["## 📈 RSI技术指标分析", "",
           "🕰️ **检测时间**: 2024-05-01 08:00:00", "", "---", "",
           "### 🔴 **超买区域** `卖出信号`", "",
           "| 加密货币 | RSI指标 | RSI值 | 最新价格 |",
           "|---------|--------|-------|-----------|",
           "| **BTC** | `RSI-14` | **72.50** | $63,123.45 |",
           "", "> 📉 **建议**: 考虑卖出，获利了结", "",
           "---", "", "### 📊 RSI指标说明", "",
           "- **RSI-14**: 14日相对强弱指数 (超买: ≥ 65, 超卖: ≤ 35)",
           "- **RSI-6**: 6日相对强弱指数 (超买: ≥ 70, 超卖: ≤ 30)",
           "", "> ⚠️ **免责声明**: 仅供参考，不构成投资建议，请理性投资。"] := by
      with_unfolding_all decide
    rw [hlist]
    simp

/-- C10: a non-empty event list none of whose signals is `超买` or `超卖`
is not the empty alert: the title is `RSI-0个超买,0个超卖信号` (behind the
optional timeframe prefix) and the body is just the header block followed
by the fixed footer, with no table section. -/
theorem unmatched_signals_still_render (events : List ExtremeEntry)
    (timeframe_tag : Option String) (now : String)
    (hne : events.isEmpty = false)
    (hsig : ∀ e ∈ events, e.signal ≠ "超买" ∧ e.signal ≠ "超卖") :
    format_rsi_message events timeframe_tag now ≠ ("", "")
    ∧ (format_rsi_message events timeframe_tag now).1
        = mkTitle timeframe_tag "RSI-0个超买,0个超卖信号"
    ∧ (format_rsi_message events timeframe_tag now).2
        = String.intercalate "\n" (headerLines now ++ footerLines) := by
  have hob : overboughtItems events = [] := by
    rw [overboughtItems, List.filter_eq_nil_iff]
    intro e he
    simpa using (hsig e he).1
  have hos : oversoldItems events = [] := by
    rw [oversoldItems, List.filter_eq_nil_iff]
    intro e he
    simpa using (hsig e he).2
  obtain ⟨e, es, rfl⟩ : ∃ a l, events = a :: l := by
    cases events with
    | nil => simp at hne
    | cons a l => exact ⟨a, l, rfl⟩
  have htitle : (format_rsi_message (e :: es) timeframe_tag now).1
      = mkTitle timeframe_tag "RSI-0个超买,0个超卖信号" := by
    rw [title_of_cons, base_title, hob, hos]
    rfl
  have hbody : (format_rsi_message (e :: es) timeframe_tag now).2
      = String.intercalate "\n" (headerLines now ++ footerLines) := by
    show String.intercalate "\n" (format_lines (e :: es) now) = _
    rw [format_lines, hob, hos]
    simp [obSection, osSection]
  refine ⟨?_, htitle, hbody⟩
  intro hcontra
  have h1 : (format_rsi_message (e :: es) timeframe_tag now).1 = "" := by
    rw [hcontra]
  rw [htitle] at h1
  cases timeframe_tag with
  | none => exact absurd h1 (by decide)
  | some t =>
      simp only [mkTitle] at h1
      by_cases ht : t.isEmpty
      · rw [if_pos ht] at h1
        exact absurd h1 (by decide)
      · rw [if_neg ht] at h1
        have hlen := congrArg String.length h1
        rw [String.length_append, String.length_append] at hlen
        have h2 : (" | " : String).length = 3 := rfl
        have h3 : ("RSI-0个超买,0个超卖信号" : String).length = 15 := rfl
        have h0 : ("" : String).length = 0 := rfl
        rw [h2, h3, h0] at hlen
        omega

/-- C10 at a concrete input: one event with the signal `中性`. -/
theorem unmatched_signals_still_render_witness :
    format_rsi_message [⟨"BTC", "RSI-14", "中性", 50, none⟩] none "2024-05-01 08:00:00"
        ≠ ("", "")
    ∧ (format_rsi_message [⟨"BTC", "RSI-14", "中性", 50, none⟩] none
        "2024-05-01 08:00:00").1 = mkTitle none "RSI-0个超买,0个超卖信号"
    ∧ (format_rsi_message [⟨"BTC", "RSI-14", "中性", 50, none⟩] none
        "2024-05-01 08:00:00").2
        = String.intercalate "\n" (headerLines "2024-05-01 08:00:00" ++ footerLines) :=
  unmatched_signals_still_render [⟨"BTC", "RSI-14", "中性", 50, none⟩] none
    "2024-05-01 08:00:00" (by decide)
    (by
      intro e he
      rw [List.mem_singleton] at he
      subst he
      exact ⟨by decide, by decide⟩)

/-- The smoothing recursion keeps values nonnegative for `0 ≤ α ≤ 1`. -/
lemma ewmFrom_nonneg (alpha : ℚ) (h0 : 0 ≤ alpha) (h1 : alpha ≤ 1) (xs : List ℚ) :
    ∀ prev, 0 ≤ prev → (∀ x ∈ xs, 0 ≤ x) → ∀ y ∈ ewmFrom alpha prev xs, 0 ≤ y := by
  induction xs with
  | nil =>
      intro prev _ _ y hy
      simp [ewmFrom] at hy
  | cons x rest ih =>
      intro prev hprev hxs y hy
      simp only [ewmFrom] at hy
      have hx : 0 ≤ x := hxs x (List.mem_cons_self x rest)
      have hv : 0 ≤ alpha * x + (1 - alpha) * prev :=
        add_nonneg (mul_nonneg h0 hx) (mul_nonneg (by linarith) hprev)
      rcases List.mem_cons.mp hy with h | h
      · exact h ▸ hv
      · exact ih _ hv (fun z hz => hxs z (List.mem_cons_of_mem x hz)) y h

/-- `ewm_mean` of a nonnegative series is nonnegative. -/
lemma ewm_mean_nonneg (alpha : ℚ) (h0 : 0 ≤ alpha) (h1 : alpha ≤ 1) (xs : List ℚ)
    (hxs : ∀ x ∈ xs, 0 ≤ x) : ∀ y ∈ ewm_mean alpha xs, 0 ≤ y := by
  cases xs with
  | nil =>
      intro y hy
      simp [ewm_mean] at hy
  | cons x rest =>
      intro y hy
      simp only [ewm_mean] at hy
      have hx : 0 ≤ x := hxs x (List.mem_cons_self x rest)
      rcases List.mem_cons.mp hy with h | h
      · exact h ▸ hx
      · exact ewmFrom_nonneg alpha h0 h1 rest x hx
          (fun z hz => hxs z (List.mem_cons_of_mem x hz)) y h

/-- A defined RSI cell built from nonnegative averages lies in `[0, 100]`. -/
lemma rsiPoint_bounds (g l : ℚ) (hg : 0 ≤ g) (hl : 0 ≤ l) (v : ℚ)
    (hv : rsiPoint g l = some v) : 0 ≤ v ∧ v ≤ 100 := by
  rw [rsiPoint] at hv
  by_cases h1 : l = 0
  · rw [if_pos h1] at hv
    by_cases h2 : g = 0
    · rw [if_pos h2] at hv
      exact absurd hv (by simp)
    · rw [if_neg h2] at hv
      have h := Option.some.inj hv
      subst h
      norm_num
  · rw [if_neg h1] at hv
    have h := Option.some.inj hv
    subst h
    have hl' : 0 < l := lt_of_le_of_ne hl (Ne.symm h1)
    have hr : 0 ≤ g / l := div_nonneg hg (le_of_lt hl')
    have hle : 100 / (1 + g / l) ≤ 100 := div_le_self (by norm_num) (by linarith)
    have hgt : 0 < 100 / (1 + g / l) := by positivity
    constructor <;> linarith

/-- Every defined cell of the zipped RSI series is in `[0, 100]`. -/
lemma zip_rsiPoint_bounds (gs : List ℚ) :
    ∀ ls : List ℚ, (∀ g ∈ gs, 0 ≤ g) → (∀ l ∈ ls, 0 ≤ l) →
      ∀ v : ℚ, some v ∈ List.zipWith rsiPoint gs ls → 0 ≤ v ∧ v ≤ 100 := by
  induction gs with
  | nil =>
      intro ls _ _ v hv
      simp at hv
  | cons g grest ih =>
      intro ls hgs hls v hv
      cases ls with
      | nil => simp at hv
      | cons l lrest =>
          rw [List.zipWith_cons_cons] at hv
          rcases List.mem_cons.mp hv with h | h
          · exact rsiPoint_bounds g l (hgs g (List.mem_cons_self g grest))
              (hls l (List.mem_cons_self l lrest)) v h.symm
          · exact ih lrest (fun z hz => hgs z (List.mem_cons_of_mem g hz))
              (fun z hz => hls z (List.mem_cons_of_mem l hz)) v h

/-- C1: for a valid period and at least `period + 1` prices,
`calculate_rsi` returns a series, and every defined value of that series
lies within `[0, 100]`. -/
theorem calculate_rsi_values_bounded (prices : List ℚ) (period : ℕ)
    (hp : 1 ≤ period) (hl : period + 1 ≤ prices.length) :
    ∃ series, calculate_rsi prices period = some series
      ∧ ∀ v : ℚ, some v ∈ series → 0 ≤ v ∧ v ≤ 100 := by
  have hp' : (1 : ℚ) ≤ (period : ℚ) := by exact_mod_cast hp
  have halpha0 : (0 : ℚ) ≤ 1 / (period : ℚ) := by positivity
  have halpha1 : 1 / (period : ℚ) ≤ 1 := by
    rw [div_le_one (by linarith)]
    linarith
  refine ⟨none :: List.zipWith rsiPoint
      (ewm_mean (1 / (period : ℚ)) ((diffs prices).map fun d => max d 0))
      (ewm_mean (1 / (period : ℚ)) ((diffs prices).map fun d => max (-d) 0)), ?_, ?_⟩
  · rw [calculate_rsi, if_neg (by omega)]
  · intro v hv
    have hv' : some v ∈ List.zipWith rsiPoint
        (ewm_mean (1 / (period : ℚ)) ((diffs prices).map fun d => max d 0))
        (ewm_mean (1 / (period : ℚ)) ((diffs prices).map fun d => max (-d) 0)) := by
      rcases List.mem_cons.mp hv with h | h
      · exact absurd h (by simp)
      · exact h
    refine zip_rsiPoint_bounds _ _ ?_ ?_ v hv'
    · refine ewm_mean_nonneg _ halpha0 halpha1 _ ?_
      intro x hx
      rcases List.mem_map.mp hx with ⟨d, _, rfl⟩
      exact le_max_right d 0
    · refine ewm_mean_nonneg _ halpha0 halpha1 _ ?_
      intro x hx
      rcases List.mem_map.mp hx with ⟨d, _, rfl⟩
      exact le_max_right (-d) 0

/-- C1 at a concrete input: three prices, period 2. -/
theorem calculate_rsi_values_bounded_witness :
    1 ≤ 2 ∧ 2 + 1 ≤ ([1, 2, 3] : List ℚ).length
    ∧ ∃ series, calculate_rsi [1, 2, 3] 2 = some series
        ∧ ∀ v : ℚ, some v ∈ series → 0 ≤ v ∧ v ≤ 100 :=
  ⟨by decide, by decide, calculate_rsi_values_bounded [1, 2, 3] 2 (by decide) (by decide)⟩

/-- Consecutive differences of a strictly increasing series are positive. -/
lemma diffs_pos (prices : List ℚ) (h : List.Chain' (· < ·) prices) :
    ∀ d ∈ diffs prices, 0 < d := by
  induction prices with
  | nil =>
      intro d hd
      simp [diffs] at hd
  | cons a rest ih =>
      cases rest with
      | nil =>
          intro d hd
          simp [diffs] at hd
      | cons b rrest =>
          intro d hd
          obtain ⟨hab, hrest⟩ := List.chain'_cons.mp h
          have hstep : diffs (a :: b :: rrest) = (b - a) :: diffs (b :: rrest) := rfl
          rw [hstep] at hd
          rcases List.mem_cons.mp hd with h' | h'
          · subst h'
            linarith
          · exact ih hrest d h'

/-- Consecutive differences of a strictly decreasing series are negative. -/
lemma diffs_neg (prices : List ℚ) (h : List.Chain' (· > ·) prices) :
    ∀ d ∈ diffs prices, d < 0 := by
  induction prices with
  | nil =>
      intro d hd
      simp [diffs] at hd
  | cons a rest ih =>
      cases rest with
      | nil =>
          intro d hd
          simp [diffs] at hd
      | cons b rrest =>
          intro d hd
          obtain ⟨hab, hrest⟩ := List.chain'_cons.mp h
          have hstep : diffs (a :: b :: rrest) = (b - a) :: diffs (b :: rrest) := rfl
          rw [hstep] at hd
          rcases List.mem_cons.mp hd with h' | h'
          · subst h'
            linarith
          · exact ih hrest d h'

/-- The smoothing recursion keeps values positive for `0 < α ≤ 1`. -/
lemma ewmFrom_pos (alpha : ℚ) (h0 : 0 < alpha) (h1 : alpha ≤ 1) (xs : List ℚ) :
    ∀ prev, 0 < prev → (∀ x ∈ xs, 0 < x) → ∀ y ∈ ewmFrom alpha prev xs, 0 < y := by
  induction xs with
  | nil =>
      intro prev _ _ y hy
      simp [ewmFrom] at hy
  | cons x rest ih =>
      intro prev hprev hxs y hy
      simp only [ewmFrom] at hy
      have hx : 0 < x := hxs x (List.mem_cons_self x rest)
      have hv : 0 < alpha * x + (1 - alpha) * prev := by
        have := mul_pos h0 hx
        have : 0 ≤ (1 - alpha) * prev := mul_nonneg (by linarith) (le_of_lt hprev)
        linarith [mul_pos h0 hx]
      rcases List.mem_cons.mp hy with h | h
      · exact h ▸ hv
      · exact ih _ hv (fun z hz => hxs z (List.mem_cons_of_mem x hz)) y h

/-- `ewm_mean` of a positive series is positive. -/
lemma ewm_mean_pos (alpha : ℚ) (h0 : 0 < alpha) (h1 : alpha ≤ 1) (xs : List ℚ)
    (hxs : ∀ x ∈ xs, 0 < x) : ∀ y ∈ ewm_mean alpha xs, 0 < y := by
  cases xs with
  | nil =>
      intro y hy
      simp [ewm_mean] at hy
  | cons x rest =>
      intro y hy
      simp only [ewm_mean] at hy
      have hx : 0 < x := hxs x (List.mem_cons_self x rest)
      rcases List.mem_cons.mp hy with h | h
      · exact h ▸ hx
      · exact ewmFrom_pos alpha h0 h1 rest x hx
          (fun z hz => hxs z (List.mem_cons_of_mem x hz)) y h

/-- The smoothing recursion of an all-zero series from a zero seed is zero. -/
lemma ewmFrom_zero (alpha : ℚ) (xs : List ℚ) :
    ∀ prev, prev = 0 → (∀ x ∈ xs, x = 0) → ∀ y ∈ ewmFrom alpha prev xs, y = 0 := by
  induction xs with
  | nil =>
      intro prev _ _ y hy
      simp [ewmFrom] at hy
  | cons x rest ih =>
      intro prev hprev hxs y hy
      simp only [ewmFrom] at hy
      have hx : x = 0 := hxs x (List.mem_cons_self x rest)
      have hv : alpha * x + (1 - alpha) * prev = 0 := by
        rw [hx, hprev]
        ring
      rcases List.mem_cons.mp hy with h | h
      · exact h ▸ hv
      · exact ih _ hv (fun z hz => hxs z (List.mem_cons_of_mem x hz)) y h

/-- `ewm_mean` of an all-zero series is all-zero. -/
lemma ewm_mean_zero (alpha : ℚ) (xs : List ℚ) (hxs : ∀ x ∈ xs, x = 0) :
    ∀ y ∈ ewm_mean alpha xs, y = 0 := by
  cases xs with
  | nil =>
      intro y hy
      simp [ewm_mean] at hy
  | cons x rest =>
      intro y hy
      simp only [ewm_mean] at hy
      have hx : x = 0 := hxs x (List.mem_cons_self x rest)
      rcases List.mem_cons.mp hy with h | h
      · exact h ▸ hx
      · exact ewmFrom_zero alpha rest x hx
          (fun z hz => hxs z (List.mem_cons_of_mem x hz)) y h

/-- With positive average gains and zero average losses every RSI cell
saturates to 100. -/
lemma zip_rsiPoint_all_100 (gs : List ℚ) :
    ∀ ls : List ℚ, (∀ g ∈ gs, 0 < g) → (∀ l ∈ ls, l = 0) →
      ∀ c ∈ List.zipWith rsiPoint gs ls, c = some 100 := by
  induction gs with
  | nil =>
      intro ls _ _ c hc
      simp at hc
  | cons g grest ih =>
      intro ls hgs hls c hc
      cases ls with
      | nil => simp at hc
      | cons l lrest =>
          rw [List.zipWith_cons_cons] at hc
          rcases List.mem_cons.mp hc with h | h
          · subst h
            have hl : l = 0 := hls l (List.mem_cons_self l lrest)
            have hg : g ≠ 0 := ne_of_gt (hgs g (List.mem_cons_self g grest))
            rw [rsiPoint, if_pos hl, if_neg hg]
          · exact ih lrest (fun z hz => hgs z (List.mem_cons_of_mem g hz))
              (fun z hz => hls z (List.mem_cons_of_mem l hz)) c h

/-- With zero average gains and positive average losses every RSI cell
is exactly 0. -/
lemma zip_rsiPoint_all_0 (gs : List ℚ) :
    ∀ ls : List ℚ, (∀ g ∈ gs, g = 0) → (∀ l ∈ ls, 0 < l) →
      ∀ c ∈ List.zipWith rsiPoint gs ls, c = some 0 := by
  induction gs with
  | nil =>
      intro ls _ _ c hc
      simp at hc
  | cons g grest ih =>
      intro ls hgs hls c hc
      cases ls with
      | nil => simp at hc
      | cons l lrest =>
          rw [List.zipWith_cons_cons] at hc
          rcases List.mem_cons.mp hc with h | h
          · subst h
            have hg : g = 0 := hgs g (List.mem_cons_self g grest)
            have hl : l ≠ 0 := ne_of_gt (hls l (List.mem_cons_self l lrest))
            rw [rsiPoint, if_neg hl, hg]
            norm_num
          · exact ih lrest (fun z hz => hgs z (List.mem_cons_of_mem g hz))
              (fun z hz => hls z (List.mem_cons_of_mem l hz)) c h

/-- `ewmFrom` preserves length. -/
lemma ewmFrom_length (alpha : ℚ) (xs : List ℚ) :
    ∀ prev, (ewmFrom alpha prev xs).length = xs.length := by
  induction xs with
  | nil => intro prev; rfl
  | cons x rest ih =>
      intro prev
      simp only [ewmFrom, List.length_cons, ih]

/-- `ewm_mean` preserves length. -/
lemma ewm_mean_length (alpha : ℚ) (xs : List ℚ) :
    (ewm_mean alpha xs).length = xs.length := by
  cases xs with
  | nil => rfl
  | cons x rest => simp only [ewm_mean, List.length_cons, ewmFrom_length]

/-- There are `n - 1` consecutive differences of `n` prices. -/
lemma diffs_length (prices : List ℚ) : (diffs prices).length = prices.length - 1 := by
  rw [diffs, List.length_zipWith, List.length_tail]
  omega

/-- The last element of a cons whose (non-empty) tail is constant. -/
lemma getLast?_cons_of_all {α : Type} (x c : α) (Z : List α) (hne : Z ≠ [])
    (hall : ∀ z ∈ Z, z = c) : (x :: Z).getLast? = some c := by
  obtain ⟨z, zs, rfl⟩ := List.exists_cons_of_ne_nil hne
  rw [List.getLast?_cons_cons, List.getLast?_eq_getLast _ (List.cons_ne_nil z zs)]
  exact congrArg some (hall _ (List.getLast_mem (List.cons_ne_nil z zs)))

/-- C2: on a strictly increasing price series of length at least
`period + 1` every loss is zero while the smoothed gain stays positive,
so the division-by-zero case is resolved to the saturated value: the
returned series ends in exactly 100 (and the call returns a series, it
never faults). -/
theorem calculate_rsi_increasing_saturates_100 (prices : List ℚ) (period : ℕ)
    (hp : 1 ≤ period) (hl : period + 1 ≤ prices.length)
    (hmono : List.Chain' (· < ·) prices) :
    ∃ series, calculate_rsi prices period = some series
      ∧ series.getLast? = some (some 100) := by
  have hp' : (1 : ℚ) ≤ (period : ℚ) := by exact_mod_cast hp
  have halpha0 : (0 : ℚ) < 1 / (period : ℚ) := by positivity
  have halpha1 : 1 / (period : ℚ) ≤ 1 := by
    rw [div_le_one (by linarith)]
    linarith
  have hd := diffs_pos prices hmono
  have hgains : ∀ x ∈ (diffs prices).map fun d => max d 0, 0 < x := by
    intro x hx
    rcases List.mem_map.mp hx with ⟨d, hd', rfl⟩
    exact lt_of_lt_of_le (hd d hd') (le_max_left d 0)
  have hlosses : ∀ x ∈ (diffs prices).map fun d => max (-d) 0, x = 0 := by
    intro x hx
    rcases List.mem_map.mp hx with ⟨d, hd', rfl⟩
    exact max_eq_right (by linarith [hd d hd'])
  have hG := ewm_mean_pos _ halpha0 halpha1 _ hgains
  have hL := ewm_mean_zero (1 / (period : ℚ)) _ hlosses
  have hall := zip_rsiPoint_all_100 _ _ hG hL
  have hlen : 0 < (List.zipWith rsiPoint
      (ewm_mean (1 / (period : ℚ)) ((diffs prices).map fun d => max d 0))
      (ewm_mean (1 / (period : ℚ)) ((diffs prices).map fun d => max (-d) 0))).length := by
    rw [List.length_zipWith, ewm_mean_length, ewm_mean_length,
      List.length_map, List.length_map, diffs_length]
    omega
  refine ⟨none :: List.zipWith rsiPoint
      (ewm_mean (1 / (period : ℚ)) ((diffs prices).map fun d => max d 0))
      (ewm_mean (1 / (period : ℚ)) ((diffs prices).map fun d => max (-d) 0)), ?_, ?_⟩
  · rw [calculate_rsi, if_neg (by omega)]
  · exact getLast?_cons_of_all _ _ _ (List.length_pos.mp hlen) hall

/-- C2 at a concrete input: the strictly increasing series `[1, 2, 3]`
with period 2. -/
theorem calculate_rsi_increasing_saturates_100_witness :
    1 ≤ 2 ∧ 2 + 1 ≤ ([1, 2, 3] : List ℚ).length
    ∧ List.Chain' (· < ·) ([1, 2, 3] : List ℚ)
    ∧ ∃ series, calculate_rsi [1, 2, 3] 2 = some series
        ∧ series.getLast? = some (some 100) :=
  ⟨by decide, by decide, by norm_num [List.chain'_cons, List.chain'_singleton],
   calculate_rsi_increasing_saturates_100 [1, 2, 3] 2 (by decide) (by decide)
     (by norm_num [List.chain'_cons, List.chain'_singleton])⟩

/-- C9: on a strictly decreasing price series of length at least
`period + 1` every gain is zero while the smoothed loss stays positive,
so the returned series ends in exactly 0. -/
theorem calculate_rsi_decreasing_ends_0 (prices : List ℚ) (period : ℕ)
    (hp : 1 ≤ period) (hl : period + 1 ≤ prices.length)
    (hmono : List.Chain' (· > ·) prices) :
    ∃ series, calculate_rsi prices period = some series
      ∧ series.getLast? = some (some 0) := by
  have hp' : (1 : ℚ) ≤ (period : ℚ) := by exact_mod_cast hp
  have halpha0 : (0 : ℚ) < 1 / (period : ℚ) := by positivity
  have halpha1 : 1 / (period : ℚ) ≤ 1 := by
    rw [div_le_one (by linarith)]
    linarith
  have hd := diffs_neg prices hmono
  have hgains : ∀ x ∈ (diffs prices).map fun d => max d 0, x = 0 := by
    intro x hx
    rcases List.mem_map.mp hx with ⟨d, hd', rfl⟩
    exact max_eq_right (le_of_lt (hd d hd'))
  have hlosses : ∀ x ∈ (diffs prices).map fun d => max (-d) 0, 0 < x := by
    intro x hx
    rcases List.mem_map.mp hx with ⟨d, hd', rfl⟩
    exact lt_of_lt_of_le (by linarith [hd d hd']) (le_max_left (-d) 0)
  have hG := ewm_mean_zero (1 / (period : ℚ)) _ hgains
  have hL := ewm_mean_pos _ halpha0 halpha1 _ hlosses
  have hall := zip_rsiPoint_all_0 _ _ hG hL
  have hlen : 0 < (List.zipWith rsiPoint
      (ewm_mean (1 / (period : ℚ)) ((diffs prices).map fun d => max d 0))
      (ewm_mean (1 / (period : ℚ)) ((diffs prices).map fun d => max (-d) 0))).length := by
    rw [List.length_zipWith, ewm_mean_length, ewm_mean_length,
      List.length_map, List.length_map, diffs_length]
    omega
  refine ⟨none :: List.zipWith rsiPoint
      (ewm_mean (1 / (period : ℚ)) ((diffs prices).map fun d => max d 0))
      (ewm_mean (1 / (period : ℚ)) ((diffs prices).map fun d => max (-d) 0)), ?_, ?_⟩
  · rw [calculate_rsi, if_neg (by omega)]
  · exact getLast?_cons_of_all _ _ _ (List.length_pos.mp hlen) hall

/-- C9 at a concrete input: the strictly decreasing series `[3, 2, 1]`
with period 2. -/
theorem calculate_rsi_decreasing_ends_0_witness :
    1 ≤ 2 ∧ 2 + 1 ≤ ([3, 2, 1] : List ℚ).length
    ∧ List.Chain' (· > ·) ([3, 2, 1] : List ℚ)
    ∧ ∃ series, calculate_rsi [3, 2, 1] 2 = some series
        ∧ series.getLast? = some (some 0) :=
  ⟨by decide, by decide, by norm_num [List.chain'_cons, List.chain'_singleton],
   calculate_rsi_decreasing_ends_0 [3, 2, 1] 2 (by decide) (by decide)
     (by norm_num [List.chain'_cons, List.chain'_singleton])⟩

end RsiUtils
